import Mathlib

/-!
Verification of the geometry reconciliation engine of ocrd_segment.

This development shallowly embeds the core of
`ocrd_segment/classify_address_layout.py`:

* the clipping pipeline of `polygon_for_parent` (lines 376-415), modelled at
  the level of point sets in the real plane (the idealized semantics of the
  shapely operations the source calls: `within` is set inclusion,
  `intersection` is set intersection, `convex_hull` is the convex hull,
  a MultiPolygon is a set that is not preconnected);
* Python name resolution for the module, needed because the source refers to
  two names (`polygon_from_points`, `category`) that are never bound;
* the per-page driver of `ClassifyAddressLayout.process`: the duplicate
  suppression pass (lines 225-231), best-score tracking and demotion
  (lines 232-257), region id assignment (line 299), and the sibling
  reconciliation / acceptance-gate state machine (lines 306-360).
-/

namespace OcrdSegment

/-- A point of the page plane.  The source works with shapely geometries over
floating point coordinates; we idealize to the real plane. -/
abbrev Pt : Type := ℝ × ℝ

/-- The closed axis-aligned rectangle with x range `[a, b]` and y range
`[c, d]`, the building block for all concrete polygons in this file and the
model of the page canvas `Polygon([[0,0], [0,H], [W,H], [W,0]])` built at
lines 386-388 of the source. -/
def rect (a b c d : ℝ) : Set Pt := Set.Icc a b ×ˢ Set.Icc c d

/-- Two-dimensional regularization: closure of the interior.  This models the
GeometryCollection branch of `polygon_for_parent` (lines 403-405), which
drops the zero-area members (LineString, Point) of a heterogeneous
intersection and reunifies the rest: for the polygonal sets involved that is
exactly the closure of the interior.  On a set that is already a
(Multi)Polygon with no degenerate parts it is the identity. -/
def reg (s : Set Pt) : Set Pt := closure (interior s)

/-- The image of a point set under coordinate-wise rounding to the nearest
integer point (np.round of line 413 on one coordinate pair).  The vertices
of a polygon carried by a closed set s belong to s, so their roundings
belong to roundImage s, and the polygon on (any subset of) the rounded
vertices is contained in the convex hull of roundImage s. -/
def roundImage (s : Set Pt) : Set Pt :=
  {q : Pt | ∃ p ∈ s, q = (((round p.1 : ℤ) : ℝ), ((round p.2 : ℤ) : ℝ))}

/-- Step relation embedding the clipping pipeline of `polygon_for_parent`
(source lines 391-415) on already repaired polygons.  `ClipsTo child parent r`
holds when the pipeline run on the child and parent point sets can produce
`r`:

* line 396: if the child lies within the parent it is returned unchanged
  (`within_fast`);
* lines 399-402: otherwise the intersection is computed; if it is empty or
  has zero area (empty interior) the result is `none` (`empty_inter`);
* lines 403-405: zero-area pieces of a heterogeneous intersection are
  dropped (the `reg` regularization applied in the remaining cases);
* lines 406-409: if the (regularized) intersection is still disjoint - not
  preconnected, i.e. a MultiPolygon - it is replaced by its convex hull;
* lines 410-414: when the minimum clearance of the result is below 1.0, its
  exterior vertices are rounded to integers and `make_valid` is applied
  again.  The clearance test is a vertex-representation quantity the
  point-set model does not carry, so the relation admits both outcomes for
  each shape of intersection: the unrounded result (`single_piece`,
  `multi_piece`) and any rounded result (`single_piece_rounded`,
  `multi_piece_rounded`).  A rounded result is constrained by what lines
  413-414 can produce: the rounded ring has its vertices in the rounded
  image of the pre-rounding polygon, and the `make_valid` repair (cyclic
  rotation, which preserves the vertex ring, and simplification, which
  keeps a subset of the vertices) stays inside the convex hull of those
  rounded vertices.

The `make_valid` repair of the inputs (lines 393-394) is the identity on
valid polygons (its two loops break immediately when `is_valid` holds), so
it is not modelled separately. -/
inductive ClipsTo (child parent : Set Pt) : Option (Set Pt) → Prop
  | within_fast :
      child ⊆ parent → ClipsTo child parent (some child)
  | empty_inter :
      ¬ child ⊆ parent → interior (child ∩ parent) = ∅ →
      ClipsTo child parent none
  | single_piece :
      ¬ child ⊆ parent → (interior (child ∩ parent)).Nonempty →
      IsPreconnected (reg (child ∩ parent)) →
      ClipsTo child parent (some (reg (child ∩ parent)))
  | multi_piece :
      ¬ child ⊆ parent → (interior (child ∩ parent)).Nonempty →
      ¬ IsPreconnected (reg (child ∩ parent)) →
      ClipsTo child parent (some (convexHull ℝ (reg (child ∩ parent))))
  | single_piece_rounded (r : Set Pt) :
      ¬ child ⊆ parent → (interior (child ∩ parent)).Nonempty →
      IsPreconnected (reg (child ∩ parent)) →
      r ⊆ convexHull ℝ (roundImage (reg (child ∩ parent))) →
      ClipsTo child parent (some r)
  | multi_piece_rounded (r : Set Pt) :
      ¬ child ⊆ parent → (interior (child ∩ parent)).Nonempty →
      ¬ IsPreconnected (reg (child ∩ parent)) →
      r ⊆ convexHull ℝ (roundImage (convexHull ℝ (reg (child ∩ parent)))) →
      ClipsTo child parent (some r)

/-! ## Basic facts about `rect`, rounding and the pipeline -/

lemma isClosed_rect (a b c d : ℝ) : IsClosed (rect a b c d) :=
  isClosed_Icc.prod isClosed_Icc

lemma convex_rect (a b c d : ℝ) : Convex ℝ (rect a b c d) :=
  (convex_Icc a b).prod (convex_Icc c d)

lemma round_real_le_round {x y : ℝ} (h : x ≤ y) : round x ≤ round y := by
  rw [round_eq, round_eq]
  exact Int.floor_mono (by linarith)

/-- Rounding the coordinates of points of the page rectangle (whose corners
are the integers 0, imageWidth and imageHeight) stays inside it. -/
lemma roundImage_rect_subset (w h : ℕ) {s : Set Pt}
    (hs : s ⊆ rect 0 (w : ℝ) 0 (h : ℝ)) :
    roundImage s ⊆ rect 0 (w : ℝ) 0 (h : ℝ) := by
  rintro q ⟨p, hp, rfl⟩
  obtain ⟨⟨hx0, hxw⟩, hy0, hyh⟩ := hs hp
  have hx1 : (0 : ℤ) ≤ round p.1 := by
    have := round_real_le_round hx0
    simpa using this
  have hx2 : round p.1 ≤ (w : ℤ) := by
    have := round_real_le_round hxw
    simpa using this
  have hy1 : (0 : ℤ) ≤ round p.2 := by
    have := round_real_le_round hy0
    simpa using this
  have hy2 : round p.2 ≤ (h : ℤ) := by
    have := round_real_le_round hyh
    simpa using this
  refine ⟨⟨?_, ?_⟩, ?_, ?_⟩
  · show (0 : ℝ) ≤ ((round p.1 : ℤ) : ℝ)
    exact_mod_cast hx1
  · show ((round p.1 : ℤ) : ℝ) ≤ ((w : ℕ) : ℝ)
    exact_mod_cast hx2
  · show (0 : ℝ) ≤ ((round p.2 : ℤ) : ℝ)
    exact_mod_cast hy1
  · show ((round p.2 : ℤ) : ℝ) ≤ ((h : ℕ) : ℝ)
    exact_mod_cast hy2

/-- Containment through every branch of the pipeline when the parent is the
page rectangle of lines 386-388: the fast path returns a subset of the
parent, the intersection and its regularization are subsets of the (closed)
parent, the convex hull of a subset of the (convex) rectangle stays inside
it, and rounded vertices of points of the rectangle stay inside it. -/
lemma clipsTo_rect_subset (c : Set Pt) (w h : ℕ) (r : Set Pt)
    (hclip : ClipsTo c (rect 0 (w : ℝ) 0 (h : ℝ)) (some r)) :
    r ⊆ rect 0 (w : ℝ) 0 (h : ℝ) := by
  have hcl : IsClosed (rect 0 (w : ℝ) 0 (h : ℝ)) := isClosed_rect _ _ _ _
  have hcv : Convex ℝ (rect 0 (w : ℝ) 0 (h : ℝ)) := convex_rect _ _ _ _
  have hreg : reg (c ∩ rect 0 (w : ℝ) 0 (h : ℝ)) ⊆ rect 0 (w : ℝ) 0 (h : ℝ) := by
    have h1 : reg (c ∩ rect 0 (w : ℝ) 0 (h : ℝ))
        ⊆ closure (c ∩ rect 0 (w : ℝ) 0 (h : ℝ)) := closure_mono interior_subset
    have h2 : closure (c ∩ rect 0 (w : ℝ) 0 (h : ℝ))
        ⊆ closure (rect 0 (w : ℝ) 0 (h : ℝ)) := closure_mono Set.inter_subset_right
    rw [hcl.closure_eq] at h2
    exact h1.trans h2
  have hhull : convexHull ℝ (reg (c ∩ rect 0 (w : ℝ) 0 (h : ℝ)))
      ⊆ rect 0 (w : ℝ) 0 (h : ℝ) := convexHull_min hreg hcv
  cases hclip with
  | within_fast hsub => exact hsub
  | single_piece h1 h2 h3 => exact hreg
  | multi_piece h1 h2 h3 => exact hhull
  | single_piece_rounded r2 h1 h2 h3 hr =>
      exact hr.trans (convexHull_min (roundImage_rect_subset w h hreg) hcv)
  | multi_piece_rounded r2 h1 h2 h3 hr =>
      exact hr.trans (convexHull_min (roundImage_rect_subset w h hhull) hcv)

/-- A child already contained in the parent always takes the line-396 fast
path: every other branch requires the containment test to fail, so the
pipeline returns the child unchanged. -/
lemma clipsTo_of_subset {c p : Set Pt} {res : Option (Set Pt)}
    (h : ClipsTo c p res) (hsub : c ⊆ p) : res = some c := by
  cases h with
  | within_fast h1 => rfl
  | empty_inter h1 h2 => exact absurd hsub h1
  | single_piece h1 h2 h3 => exact absurd hsub h1
  | multi_piece h1 h2 h3 => exact absurd hsub h1
  | single_piece_rounded r2 h1 h2 h3 hr => exact absurd hsub h1
  | multi_piece_rounded r2 h1 h2 h3 hr => exact absurd hsub h1

/-! ## Python name resolution in classify_address_layout.py

The module refers to two names that are bound nowhere: the function
`polygon_from_points` (used at lines 384 and 390 of `polygon_for_parent`,
but absent from the imports at lines 18-46) and the variable `category`
(used in the warning call at line 295 of `process`, where the surrounding
code binds `cat` and `name` instead).  We transcribe the bound names and
model CPython resolution: local scope, then module globals, then builtins;
an unbound name raises NameError. -/

/-- Errors raised by the modelled Python code. -/
inductive PyError where
  | nameError (nm : String)
deriving DecidableEq

/-- Names bound at module level in classify_address_layout.py: the imports
of lines 1-46 plus the definitions of the module body (TOOL, the two
classes, and the three module functions). -/
def moduleNames : List String :=
  ["absolute_import", "os", "np", "Polygon", "asPolygon", "prep",
   "unary_union", "cv2", "Image", "ImageDraw", "model", "Config", "tf",
   "getLogger", "make_file_id", "assert_file_grp_cardinality",
   "coordinates_of_segment", "coordinates_for_segment", "polygon_from_bbox",
   "points_from_polygon", "MIMETYPE_PAGE", "to_xml", "TextRegionType",
   "PageType", "CoordsType", "RegionRefType", "RegionRefIndexedType",
   "OrderedGroupType", "OrderedGroupIndexedType", "UnorderedGroupType",
   "UnorderedGroupIndexedType", "TextEquivType", "page_from_file",
   "Processor", "OCRD_TOOL", "TOOL", "AddressConfig",
   "ClassifyAddressLayout", "polygon_for_parent", "make_valid",
   "page_get_reading_order"]

/-- Local names assigned anywhere in the body of
ClassifyAddressLayout.process (lines 107-374), hence reachable by local
lookup inside it. -/
def processLocals : List String :=
  ["self", "LOG", "n", "input_file", "page_id", "pcgts", "page",
   "page_image", "page_coords", "page_image_info", "dpi",
   "page_image_binarized", "page_array_bin", "dtype", "drange", "alpha",
   "color", "threshold", "components", "page_image_mask", "mark_line",
   "reading_order", "ro", "rogroup", "oldregions", "allregions", "allpolys",
   "region", "line", "page_array", "tmask", "amask", "preds", "worse", "i",
   "j", "imask", "jmask", "best", "cat", "score", "name", "mask", "bbox",
   "area", "scale", "complabels", "label", "left", "top", "w", "h", "right",
   "bottom", "contours", "region_polygon", "region_coords", "region_id",
   "has_address", "region_poly", "neighbour", "neighpoly", "line_no",
   "line_poly", "roelem", "file_id", "file_path", "out", "_"]

/-- Local names bound inside polygon_for_parent (lines 376-415). -/
def pfpLocals : List String :=
  ["polygon", "parent", "childp", "parentp", "interp"]

/-- A representative list of CPython builtins, the last scope consulted by
name resolution. -/
def pyBuiltins : List String :=
  ["len", "range", "zip", "list", "map", "tuple", "int", "float", "str",
   "enumerate", "isinstance", "Exception", "print", "dict", "set", "max",
   "min", "round", "abs", "sum", "sorted", "open", "object", "bool",
   "bytes", "type", "super", "hasattr", "getattr", "setattr", "repr",
   "NameError", "ZeroDivisionError", "ValueError", "TypeError"]

/-- CPython name resolution: local scope, then module globals, then
builtins; an unbound name raises NameError. -/
def resolveName (locals : List String) (nm : String) : Except PyError Unit :=
  if nm ∈ locals ∨ nm ∈ moduleNames ∨ nm ∈ pyBuiltins then Except.ok ()
  else Except.error (PyError.nameError nm)

/-- Lines 293-296 of process: after `polygon_for_parent`, a None result is
meant to be skipped with a warning and `continue`; evaluating the warning
arguments resolves the name `category`.  A non-None result flows on to the
region annotation. -/
def onClipResult {α : Type} (clip : Option α) : Except PyError (Option α) :=
  match clip with
  | none => (resolveName processLocals "category").map fun _ => none
  | some r => Except.ok (some r)

/-- C2: evidence for the code bug.  The claim (and spec section 7) say a
candidate whose clipped polygon is empty is skipped with a warning and the
page continues.  The code instead raises NameError: the warning call at
line 295 reads the name `category`, which is bound neither in process, nor
at module level, nor as a builtin, so the exception propagates and aborts
the page.  Candidates whose clip result is non-null flow on normally. -/
theorem c2_clip_none_raises_nameError :
    onClipResult (none : Option Unit) = Except.error (PyError.nameError "category")
    ∧ ∀ r : Unit, onClipResult (some r) = Except.ok (some r) :=
  ⟨rfl, fun _ => rfl⟩

/-- Points-string parsing of the unbound helper: per C10 the surrounding
name lookup fails before ocrd_utils.polygon_from_points could ever be
called from this module, so the polygon its vertex list would span is
irrelevant and left as the empty set. -/
def pointsPolygon (_pts : List Pt) : Set Pt := ∅

/-- The `parent` argument of polygon_for_parent: a page with an explicit
Border, a page without one (carrying imageWidth and imageHeight), or a
non-page region (carrying its Coords points). -/
inductive ParentArg where
  | pageWithBorder (borderPts : List Pt)
  | pageNoBorder (imageWidth imageHeight : ℕ)
  | regionParent (coordPts : List Pt)

/-- Lines 381-390 of polygon_for_parent: resolution of the parent polygon.
A page without Border yields the full image rectangle
Polygon([[0,0], [0,H], [W,H], [W,0]]); a page with an explicit Border, and
any non-page (region) parent, first evaluate the global name
polygon_from_points. -/
def parentPolygonResolve : ParentArg → Except PyError (Set Pt)
  | ParentArg.pageWithBorder pts =>
      (resolveName pfpLocals "polygon_from_points").map fun _ => pointsPolygon pts
  | ParentArg.pageNoBorder w h =>
      Except.ok (rect 0 (w : ℝ) 0 (h : ℝ))
  | ParentArg.regionParent pts =>
      (resolveName pfpLocals "polygon_from_points").map fun _ => pointsPolygon pts

/-- A full run of polygon_for_parent: resolve the parent polygon (lines
381-390, which may raise), then run the clipping pipeline (lines 391-415). -/
inductive PolygonForParentRun (child : Set Pt) (pa : ParentArg) :
    Except PyError (Option (Set Pt)) → Prop
  | nameFail (e : PyError) :
      parentPolygonResolve pa = Except.error e →
      PolygonForParentRun child pa (Except.error e)
  | resolved (pp : Set Pt) (r : Option (Set Pt)) :
      parentPolygonResolve pa = Except.ok pp → ClipsTo child pp r →
      PolygonForParentRun child pa (Except.ok r)

lemma parentPolygonResolve_border (pts : List Pt) :
    parentPolygonResolve (ParentArg.pageWithBorder pts)
      = Except.error (PyError.nameError "polygon_from_points") := rfl

lemma parentPolygonResolve_region (pts : List Pt) :
    parentPolygonResolve (ParentArg.regionParent pts)
      = Except.error (PyError.nameError "polygon_from_points") := rfl

/-- C10: for every child polygon, when the page has an explicit Border or
the parent is a non-page region, every run of polygon_for_parent raises
NameError for the unbound name polygon_from_points before any clipping is
performed, so clipping against an explicit border never succeeds. -/
theorem c10_polygon_from_points_unbound (child : Set Pt) (pts : List Pt)
    (res : Except PyError (Option (Set Pt))) :
    (PolygonForParentRun child (ParentArg.pageWithBorder pts) res →
      res = Except.error (PyError.nameError "polygon_from_points"))
    ∧ (PolygonForParentRun child (ParentArg.regionParent pts) res →
      res = Except.error (PyError.nameError "polygon_from_points")) := by
  constructor
  · intro h
    cases h with
    | nameFail e he =>
        rw [parentPolygonResolve_border] at he
        injection he with he'
        rw [he']
    | resolved pp r hok hc =>
        rw [parentPolygonResolve_border] at hok
        exact Except.noConfusion hok
  · intro h
    cases h with
    | nameFail e he =>
        rw [parentPolygonResolve_region] at he
        injection he with he'
        rw [he']
    | resolved pp r hok hc =>
        rw [parentPolygonResolve_region] at hok
        exact Except.noConfusion hok

/-- C10, witness: a concrete run on the empty child and an empty Border
points list, with the theorem applied to it. -/
theorem c10_polygon_from_points_unbound_witness :
    PolygonForParentRun (∅ : Set Pt) (ParentArg.pageWithBorder [])
      (Except.error (PyError.nameError "polygon_from_points"))
    ∧ (Except.error (PyError.nameError "polygon_from_points")
        : Except PyError (Option (Set Pt)))
      = Except.error (PyError.nameError "polygon_from_points") := by
  have hrun : PolygonForParentRun (∅ : Set Pt) (ParentArg.pageWithBorder [])
      (Except.error (PyError.nameError "polygon_from_points")) :=
    PolygonForParentRun.nameFail (PyError.nameError "polygon_from_points")
      (parentPolygonResolve_border [])
  exact ⟨hrun, (c10_polygon_from_points_unbound ∅ [] _).1 hrun⟩

/-- C4: polygon_for_parent is idempotent.  If a run on a child returns a
non-null polygon r, then every run of polygon_for_parent on r with the same
parent argument returns exactly r.  The parent can only have resolved to
the page rectangle (lines 386-388; a Border or region parent raises
NameError, per C10), every non-null result lies within that rectangle (C1),
and a child within the parent takes the line-396 fast path, which returns
it unchanged. -/
theorem c4_clip_idempotent (child : Set Pt) (pa : ParentArg) (r : Set Pt)
    (res : Except PyError (Option (Set Pt)))
    (hrun : PolygonForParentRun child pa (Except.ok (some r)))
    (hrerun : PolygonForParentRun r pa res) :
    res = Except.ok (some r) := by
  cases hrun with
  | resolved pp r2 hok hclip =>
      cases pa with
      | pageWithBorder pts =>
          rw [parentPolygonResolve_border] at hok
          exact Except.noConfusion hok
      | regionParent pts =>
          rw [parentPolygonResolve_region] at hok
          exact Except.noConfusion hok
      | pageNoBorder w h =>
          have hok2 : (Except.ok (rect 0 (w : ℝ) 0 (h : ℝ))
              : Except PyError (Set Pt)) = Except.ok pp := hok
          injection hok2 with hpp
          rw [← hpp] at hclip
          have hsub : r ⊆ rect 0 (w : ℝ) 0 (h : ℝ) :=
            clipsTo_rect_subset child w h r hclip
          cases hrerun with
          | nameFail e he =>
              have he2 : (Except.ok (rect 0 (w : ℝ) 0 (h : ℝ))
                  : Except PyError (Set Pt)) = Except.error e := he
              exact Except.noConfusion he2
          | resolved pp2 res2 hok2 hclip2 =>
              have hok2b : (Except.ok (rect 0 (w : ℝ) 0 (h : ℝ))
                  : Except PyError (Set Pt)) = Except.ok pp2 := hok2
              injection hok2b with hpp2
              rw [← hpp2] at hclip2
              rw [clipsTo_of_subset hclip2 hsub]

/-- C4, witness: the idempotence theorem applied to two concrete runs on a
borderless 5 by 5 page, with the unit square as child and as re-clipped
result. -/
theorem c4_clip_idempotent_witness :
    (Except.ok (some (rect 0 (1 : ℝ) 0 1))
      : Except PyError (Option (Set Pt))) = Except.ok (some (rect 0 (1 : ℝ) 0 1)) := by
  have hsub : rect 0 (1 : ℝ) 0 1 ⊆ rect 0 ((5 : ℕ) : ℝ) 0 ((5 : ℕ) : ℝ) :=
    Set.prod_mono (Set.Icc_subset_Icc (le_refl 0) (by norm_num))
      (Set.Icc_subset_Icc (le_refl 0) (by norm_num))
  exact c4_clip_idempotent (rect 0 (1 : ℝ) 0 1) (ParentArg.pageNoBorder 5 5)
    (rect 0 (1 : ℝ) 0 1) (Except.ok (some (rect 0 (1 : ℝ) 0 1)))
    (PolygonForParentRun.resolved (rect 0 ((5 : ℕ) : ℝ) 0 ((5 : ℕ) : ℝ))
      (some (rect 0 (1 : ℝ) 0 1)) rfl (ClipsTo.within_fast hsub))
    (PolygonForParentRun.resolved (rect 0 ((5 : ℕ) : ℝ) 0 ((5 : ℕ) : ℝ))
      (some (rect 0 (1 : ℝ) 0 1)) rfl (ClipsTo.within_fast hsub))

/-! ## The suppression pass (lines 225-231)

Masks are boolean pixel arrays; we model each instance mask as a flattened
list of booleans.  numpy elementwise `*` on boolean arrays is logical and,
elementwise `+` is logical or, and `np.count_nonzero` counts true pixels. -/

/-- np.count_nonzero on a (flattened) boolean mask. -/
def countNonzero (m : List Bool) : ℕ := (m.filter id).length

/-- Elementwise product of two boolean masks (logical and). -/
def maskAnd (a b : List Bool) : List Bool := List.zipWith and a b

/-- Elementwise sum of two boolean masks (logical or). -/
def maskOr (a b : List Bool) : List Bool := List.zipWith or a b

/-- Line 230: count_nonzero(imask * jmask) / count_nonzero(imask + jmask),
the mask intersection-over-union, with the Python float division idealized
over the rationals. -/
def maskIoU (a b : List Bool) : ℚ :=
  (countNonzero (maskAnd a b) : ℚ) / (countNonzero (maskOr a b) : ℚ)

/-- Lines 230-231, the body of the pair loop: when the IoU of the pair
(i, j) exceeds 0.5, the instance with the smaller score (j on a tie) is
appended to worse; otherwise nothing is appended. -/
def pairMark (masks : List (List Bool)) (scores : List ℚ) (i j : ℕ) : List ℕ :=
  if 1 / 2 < maskIoU (masks.getD i []) (masks.getD j []) then
    [if scores.getD i 0 < scores.getD j 0 then i else j]
  else []

/-- Lines 225-231: the worse list built by the double loop
for i in range(n): for j in range(i+1, n). -/
def worseList (masks : List (List Bool)) (scores : List ℚ) : List ℕ :=
  (List.range masks.length).flatMap fun i =>
    (List.range' (i + 1) (masks.length - (i + 1))).flatMap fun j =>
      pairMark masks scores i j

/-- C5: in the suppression pass, for every pair i < j of detector instances
whose masks have IoU strictly above 0.5, exactly one of the two is appended
to the worse list for that pair - the one with the strictly lower score,
and j (the higher index) on a tie - and that element is a member of the
final worse list. -/
theorem c5_suppression_pass (masks : List (List Bool)) (scores : List ℚ)
    (i j : ℕ) (hij : i < j) (hj : j < masks.length)
    (hiou : 1 / 2 < maskIoU (masks.getD i []) (masks.getD j [])) :
    pairMark masks scores i j
      = [if scores.getD i 0 < scores.getD j 0 then i else j]
    ∧ (if scores.getD i 0 < scores.getD j 0 then i else j) ∈ worseList masks scores
    ∧ (scores.getD i 0 < scores.getD j 0 → pairMark masks scores i j = [i])
    ∧ (scores.getD j 0 ≤ scores.getD i 0 → pairMark masks scores i j = [j]) := by
  refine ⟨by simp only [pairMark, if_pos hiou], ?_, ?_, ?_⟩
  · apply List.mem_flatMap.mpr
    refine ⟨i, List.mem_range.mpr (hij.trans hj), ?_⟩
    apply List.mem_flatMap.mpr
    refine ⟨j, List.mem_range'_1.mpr ⟨hij, by omega⟩, ?_⟩
    simp only [pairMark, if_pos hiou, List.mem_singleton]
  · intro h
    simp only [pairMark, if_pos hiou, if_pos h]
  · intro h
    simp only [pairMark, if_pos hiou, if_neg (not_lt.mpr h)]

/-- C5, witness: two fully overlapping single-pixel masks with scores 1/2
and 1/4; the pair appends exactly instance 1, which lands in the worse
list. -/
theorem c5_suppression_pass_witness :
    pairMark [[true], [true]] [1 / 2, 1 / 4] 0 1 = [1]
    ∧ (1 : ℕ) ∈ worseList [[true], [true]] [1 / 2, 1 / 4] := by
  have hiou : (1 : ℚ) / 2
      < maskIoU (([[true], [true]] : List (List Bool)).getD 0 [])
          (([[true], [true]] : List (List Bool)).getD 1 []) := by
    norm_num [maskIoU, maskAnd, maskOr, countNonzero]
  have h := c5_suppression_pass [[true], [true]] [1 / 2, 1 / 4] 0 1
    (by norm_num) (by norm_num) hiou
  have hcond : ¬ (([1 / 2, 1 / 4] : List ℚ).getD 0 0 < ([1 / 2, 1 / 4] : List ℚ).getD 1 0) := by
    norm_num
  refine ⟨?_, ?_⟩
  · have h1 := h.1
    rwa [if_neg hcond] at h1
  · have h2 := h.2.1
    rwa [if_neg hcond] at h2

/-! ## Best-score tracking and demotion (lines 232-257) -/

/-- Lines 233-242, one step of the best-score loop: suppressed instances
are skipped, only categories 1 and 2 (sndr and rcpt) are tracked, and
best[cat] is raised to the score on strict improvement. -/
def bestUpd (worse : List ℕ) (cats : List ℕ) (scores : List ℚ)
    (best : List ℚ) (i : ℕ) : List ℚ :=
  if i ∈ worse then best
  else if cats.getD i 0 = 1 ∨ cats.getD i 0 = 2 then
    if (best.getD (cats.getD i 0) 0) < scores.getD i 0 then
      best.set (cats.getD i 0) (scores.getD i 0)
    else best
  else best

/-- Lines 232-242: best = np.zeros(4) followed by the loop over all
instances. -/
def bestScores (cats : List ℕ) (scores : List ℚ) (worse : List ℕ) : List ℚ :=
  (List.range cats.length).foldl (bestUpd worse cats scores) [0, 0, 0, 0]

/-- The page maximum of a category: the maximum confidence over the
non-suppressed instances of that category, zero if there are none. -/
def pageMax (cats : List ℕ) (scores : List ℚ) (worse : List ℕ) (c : ℕ) : ℚ :=
  (List.range cats.length).foldl
    (fun m i => if i ∉ worse ∧ cats.getD i 0 = c then max m (scores.getD i 0) else m) 0

/-- Lines 250-257: the category under which a (non-suppressed) instance is
processed - demoted to 3 exactly when its score is strictly below
best[cat]. -/
def finalCat (cats : List ℕ) (scores : List ℚ) (worse : List ℕ) (i : ℕ) : ℕ :=
  if scores.getD i 0 < (bestScores cats scores worse).getD (cats.getD i 0) 0 then 3
  else cats.getD i 0

lemma getD_set_self (l : List ℚ) (i : ℕ) (h : i < l.length) (a : ℚ) :
    (l.set i a).getD i 0 = a := by
  simp [List.getD_eq_getElem?_getD, List.getElem?_set_self, h]

lemma getD_set_ne (l : List ℚ) (i j : ℕ) (h : i ≠ j) (a : ℚ) :
    (l.set i a).getD j 0 = l.getD j 0 := by
  simp [List.getD_eq_getElem?_getD, List.getElem?_set_ne h]

lemma bestUpd_length (worse : List ℕ) (cats : List ℕ) (scores : List ℚ)
    (best : List ℚ) (i : ℕ) :
    (bestUpd worse cats scores best i).length = best.length := by
  simp only [bestUpd]
  split
  · rfl
  · split
    · split
      · exact List.length_set best _ _
      · rfl
    · rfl

lemma bestFold_length (worse : List ℕ) (cats : List ℕ) (scores : List ℚ) :
    ∀ (L : List ℕ) (B : List ℚ),
      (L.foldl (bestUpd worse cats scores) B).length = B.length := by
  intro L
  induction L with
  | nil => intro B; rfl
  | cons x xs ih =>
      intro B
      simp only [List.foldl_cons]
      rw [ih, bestUpd_length]

lemma bestUpd_getD (worse : List ℕ) (cats : List ℕ) (scores : List ℚ)
    (B : List ℚ) (hB : B.length = 4) (c : ℕ) (hc : c = 1 ∨ c = 2) (x : ℕ) :
    (bestUpd worse cats scores B x).getD c 0
      = if x ∉ worse ∧ cats.getD x 0 = c then max (B.getD c 0) (scores.getD x 0)
        else B.getD c 0 := by
  by_cases hw : x ∈ worse
  · simp [bestUpd, hw]
  · by_cases hcat : cats.getD x 0 = c
    · have hg : cats.getD x 0 = 1 ∨ cats.getD x 0 = 2 := by rw [hcat]; exact hc
      have hcB : c < B.length := by
        rw [hB]
        rcases hc with rfl | rfl <;> norm_num
      rw [if_pos (And.intro hw hcat)]
      simp only [bestUpd, if_neg hw, if_pos hg]
      by_cases hlt : (B.getD (cats.getD x 0) 0) < scores.getD x 0
      · rw [if_pos hlt, hcat]
        rw [hcat] at hlt
        rw [getD_set_self B c hcB]
        exact (max_eq_right hlt.le).symm
      · rw [if_neg hlt]
        rw [hcat] at hlt
        exact (max_eq_left (not_lt.mp hlt)).symm
    · have hcond : ¬ (x ∉ worse ∧ cats.getD x 0 = c) := fun hx => hcat hx.2
      rw [if_neg hcond]
      simp only [bestUpd, if_neg hw]
      split
      · split
        · exact getD_set_ne B _ c hcat _
        · rfl
      · rfl

lemma bestFold_getD (worse : List ℕ) (cats : List ℕ) (scores : List ℚ)
    (c : ℕ) (hc : c = 1 ∨ c = 2) :
    ∀ (L : List ℕ) (B : List ℚ), B.length = 4 →
      (L.foldl (bestUpd worse cats scores) B).getD c 0
        = L.foldl
            (fun m i => if i ∉ worse ∧ cats.getD i 0 = c then max m (scores.getD i 0) else m)
            (B.getD c 0) := by
  intro L
  induction L with
  | nil => intro B _; rfl
  | cons x xs ih =>
      intro B hB
      simp only [List.foldl_cons]
      have hlen : (bestUpd worse cats scores B x).length = 4 := by
        rw [bestUpd_length, hB]
      rw [ih _ hlen, bestUpd_getD worse cats scores B hB c hc x]

lemma bestScores_eq_pageMax (cats : List ℕ) (scores : List ℚ)
    (worse : List ℕ) (c : ℕ) (hc : c = 1 ∨ c = 2) :
    (bestScores cats scores worse).getD c 0 = pageMax cats scores worse c := by
  unfold bestScores pageMax
  rw [bestFold_getD worse cats scores c hc (List.range cats.length) [0, 0, 0, 0] rfl]
  rcases hc with rfl | rfl <;> rfl

lemma bestFold_getD_three (worse : List ℕ) (cats : List ℕ) (scores : List ℚ) :
    ∀ (L : List ℕ) (B : List ℚ),
      (L.foldl (bestUpd worse cats scores) B).getD 3 0 = B.getD 3 0 := by
  intro L
  induction L with
  | nil => intro B; rfl
  | cons x xs ih =>
      intro B
      simp only [List.foldl_cons]
      rw [ih]
      simp only [bestUpd]
      split
      · rfl
      · split
        · split
          · rename_i hg _
            rcases hg with h1 | h1 <;> rw [h1] <;>
              exact getD_set_ne B _ 3 (by norm_num) _
          · rfl
        · rfl

lemma bestScores_getD_three (cats : List ℕ) (scores : List ℚ) (worse : List ℕ) :
    (bestScores cats scores worse).getD 3 0 = 0 := by
  unfold bestScores
  rw [bestFold_getD_three]
  rfl

/-- C8: a non-suppressed instance of a unique-role category (1 or 2) whose
score is strictly below that category page maximum is demoted to the
fallback category 3; an instance at the page maximum keeps its original
category; and fallback-category (3) instances are never demoted (their
tracked best stays zero and scores are nonnegative). -/
theorem c8_unique_role_demotion (masks : List (List Bool)) (cats : List ℕ)
    (scores : List ℚ) (i : ℕ) (hw : i ∉ worseList masks scores) :
    ((cats.getD i 0 = 1 ∨ cats.getD i 0 = 2) →
      (scores.getD i 0
          < pageMax cats scores (worseList masks scores) (cats.getD i 0) →
        finalCat cats scores (worseList masks scores) i = 3)
      ∧ (scores.getD i 0
          = pageMax cats scores (worseList masks scores) (cats.getD i 0) →
        finalCat cats scores (worseList masks scores) i = cats.getD i 0))
    ∧ (cats.getD i 0 = 3 → 0 ≤ scores.getD i 0 →
        finalCat cats scores (worseList masks scores) i = cats.getD i 0) := by
  constructor
  · intro hc
    have hbp := bestScores_eq_pageMax cats scores (worseList masks scores) _ hc
    constructor
    · intro hlt
      unfold finalCat
      rw [hbp, if_pos hlt]
    · intro heq
      unfold finalCat
      rw [hbp, ← heq, if_neg (lt_irrefl _)]
  · intro hc3 hs
    unfold finalCat
    rw [hc3, bestScores_getD_three, if_neg (not_lt.mpr hs)]

/-- Two disjoint single-pixel masks: no pair exceeds the IoU threshold, the
worse list is empty. -/
lemma worseList_disjoint_pair (s : List ℚ) :
    worseList [[true, false], [false, true]] s = [] := by
  norm_num [worseList, pairMark, maskIoU, maskAnd, maskOr, countNonzero,
    List.range_succ, List.range']

/-- C8, witness: two non-suppressed instances of unique-role category 1 with
scores 4/5 and 1/2; the page maximum is 4/5, so instance 1 is demoted to 3
and instance 0 keeps category 1. -/
theorem c8_unique_role_demotion_witness :
    finalCat [1, 1] [4 / 5, 1 / 2]
        (worseList [[true, false], [false, true]] [4 / 5, 1 / 2]) 1 = 3
    ∧ finalCat [1, 1] [4 / 5, 1 / 2]
        (worseList [[true, false], [false, true]] [4 / 5, 1 / 2]) 0 = 1 := by
  have hwl := worseList_disjoint_pair [4 / 5, 1 / 2]
  constructor
  · refine ((c8_unique_role_demotion [[true, false], [false, true]] [1, 1]
      [4 / 5, 1 / 2] 1 (by rw [hwl]; exact List.not_mem_nil 1)).1
        (Or.inl rfl)).1 ?_
    rw [hwl]
    norm_num [pageMax, List.range_succ]
  · exact ((c8_unique_role_demotion [[true, false], [false, true]] [1, 1]
      [4 / 5, 1 / 2] 0 (by rw [hwl]; exact List.not_mem_nil 0)).1
        (Or.inl rfl)).2 (by rw [hwl]; norm_num [pageMax, List.range_succ])

/-! ## Region id assignment (line 299) -/

/-- Python "%02d" formatting of a natural number: zero-padded to (at least)
two digits. -/
def pad2 (n : ℕ) : String := if n < 10 then "0" ++ toString n else toString n

/-- Line 299: region_id = "addressregion%02d" % (i+1), where i is the raw
detector instance index of the page. -/
def regionId (i : ℕ) : String := "addressregion" ++ pad2 (i + 1)

/-- The surviving (non-suppressed) instance indices, in detector order. -/
def survivors (masks : List (List Bool)) (scores : List ℚ) : List ℕ :=
  (List.range masks.length).filter (fun i => i ∉ worseList masks scores)

/-- The sequence numbers the surviving instances receive: line 299 gives
instance i the number i + 1. -/
def survivorNumbers (masks : List (List Bool)) (scores : List ℚ) : List ℕ :=
  (survivors masks scores).map (· + 1)

/-- Three instances where the middle one is suppressed by the first. -/
def masksG : List (List Bool) := [[true, false], [true, false], [false, true]]

def scoresG : List ℚ := [9 / 10, 3 / 5, 1 / 2]

lemma worseList_masksG : worseList masksG scoresG = [1] := by
  norm_num [worseList, masksG, scoresG, pairMark, maskIoU, maskAnd, maskOr,
    countNonzero, List.range_succ, List.range']

lemma survivors_masksG : survivors masksG scoresG = [0, 2] := by
  unfold survivors
  simp only [worseList_masksG]
  decide

/-- C9, counterexample: with three detected instances of which the middle
one is suppressed, the surviving instances receive the sequence numbers 1
and 3 (ids addressregion01 and addressregion03): the numbering follows the
raw instance index, so suppression leaves a gap and the surviving numbers
are not consecutive. -/
theorem c9_sequence_gap_cex :
    survivorNumbers masksG scoresG = [1, 3]
    ∧ (survivors masksG scoresG).map regionId
      = ["addressregion01", "addressregion03"]
    ∧ ¬ ∃ a, survivorNumbers masksG scoresG = [a, a + 1] := by
  have h1 : survivorNumbers masksG scoresG = [1, 3] := by
    unfold survivorNumbers
    rw [survivors_masksG]
    decide
  refine ⟨h1, ?_, ?_⟩
  · rw [survivors_masksG]
    decide
  · rintro ⟨a, ha⟩
    rw [h1] at ha
    simp only [List.cons.injEq, and_true] at ha
    omega

/-- C9, amended: region ids are assigned deterministically and page-scoped
as addressregion%02d of (instance index + 1), in detector output order over
ALL instances; the numbers of the surviving instances are strictly
increasing, and they are consecutive with no gaps exactly when no instance
was suppressed - a suppressed instance in between leaves a gap. -/
theorem c9_id_assignment (masks : List (List Bool)) (scores : List ℚ) :
    List.Pairwise (· < ·) (survivorNumbers masks scores)
    ∧ (∀ i ∈ survivors masks scores, regionId i = "addressregion" ++ pad2 (i + 1))
    ∧ (worseList masks scores = [] →
        survivorNumbers masks scores = (List.range masks.length).map (· + 1)) := by
  refine ⟨?_, fun i _ => rfl, ?_⟩
  · unfold survivorNumbers survivors
    refine List.pairwise_map.mpr ?_
    refine List.Pairwise.imp (fun h => Nat.add_lt_add_right h 1) ?_
    exact List.Pairwise.sublist (List.filter_sublist _) (List.pairwise_lt_range _)
  · intro h
    unfold survivorNumbers survivors
    have hf : ∀ a ∈ List.range masks.length,
        decide (a ∉ worseList masks scores) = true := by
      intro a _
      rw [h]
      simp
    rw [List.filter_eq_self.mpr hf]

/-- C9, witness for the amended theorem: two non-overlapping instances, no
suppression, numbers 1 and 2 with no gap. -/
theorem c9_id_assignment_witness :
    survivorNumbers [[true, false], [false, true]] [1, 1] = [1, 2] :=
  ((c9_id_assignment [[true, false], [false, true]] [1, 1]).2.2
    (worseList_disjoint_pair [1, 1])).trans (by decide)

/-! ## Sibling reconciliation and the acceptance gate (lines 306-360) -/

/-- A text line: id and custom attribute (None when absent). -/
structure TextLine where
  id : String
  custom : Option String
deriving DecidableEq

/-- A text region: id and its child text lines.  The Coords geometry is
omitted: no claim settled here depends on the polygon bookkeeping of lines
328-336. -/
structure TextRegion where
  id : String
  textLines : List TextLine
deriving DecidableEq

/-- The outcome of the region-relationship conditions at lines 312-316, 349
and 352 for one neighbour, supplied as an input to the driver model (the
geometric predicates themselves are not the subject of C6/C7). -/
inductive Verdict where
  | subsumed
  | crossing
  | overlapping
  | disjoint
deriving DecidableEq

/-- Python str.startswith, computed on the character lists. -/
def strStartsWith (s p : String) : Bool := List.isPrefixOf p.data s.data

/-- Line 322: a line carries the target annotation when its custom string
exists and starts with "subtype: ADDRESS_" (a missing custom is falsy). -/
def lineHasAddress (l : TextLine) : Bool :=
  strStartsWith (l.custom.getD "") "subtype: ADDRESS_"

/-- The reading-order bookkeeping: elems is the list of RegionRef elements
of the ReadingOrder group, each recorded by its current regionRef value;
dict is the id-to-element map built by page_get_reading_order (lines
431-450), here an association list from region id to element index. -/
structure ROState where
  elems : List String
  dict : List (String × ℕ)
deriving DecidableEq

/-- Association-list lookup (Python dict read). -/
def lookupA (d : List (String × ℕ)) (k : String) : Option ℕ :=
  (d.find? (fun e => e.1 = k)).map (fun e => e.2)

/-- Association-list insert with overwrite (Python dict write). -/
def insertA (d : List (String × ℕ)) (k : String) (v : ℕ) : List (String × ℕ) :=
  (d.filter (fun e => e.1 ≠ k)) ++ [(k, v)]

/-- Association-list delete (Python del). -/
def eraseA (d : List (String × ℕ)) (k : String) : List (String × ℕ) :=
  d.filter (fun e => e.1 ≠ k)

/-- Lines 344-348: when the removed sibling has a reading-order entry, its
element is retargeted in place to the new region id, the dict gains an
entry for the new id pointing at that element, and the sibling entry is
deleted.  The element itself is never removed from the group. -/
def retargetRO (ro : ROState) (sid rid : String) : ROState :=
  match lookupA ro.dict sid with
  | none => ro
  | some k =>
      { elems := ro.elems.set k rid
        dict := eraseA (insertA ro.dict rid k) sid }

/-- The page-level driver state: the region tree, the ids already removed
in this pass (oldregions), and the reading order. -/
structure PageState where
  regions : List TextRegion
  oldregions : List String
  ro : ROState
deriving DecidableEq

/-- Lines 319-339: stealing the lines of a subsumed neighbour.  Each line id
is rewritten to regionid_lineNN, numbered from the current line count of
the candidate; the lines are appended to the candidate; the returned flag
records whether any stolen line carries the target annotation (checked at
line 322 on the original custom values, which the id rewrite leaves
untouched). -/
def subsumeLines (cand : TextRegion) (nb : TextRegion) : TextRegion × Bool :=
  let n0 := cand.textLines.length
  let stolen := nb.textLines.enum.map fun ik =>
    { ik.2 with id := cand.id ++ "_line" ++ pad2 (n0 + ik.1) }
  ({ cand with textLines := cand.textLines ++ stolen },
   nb.textLines.any lineHasAddress)

/-- The accumulator of the per-candidate loop over existing regions. -/
structure ReconcileAcc where
  cand : TextRegion
  hasAddress : Bool
  st : PageState
deriving DecidableEq

/-- Lines 309-354, one neighbour: neighbours already removed by an earlier
subsumption are skipped (line 310); a subsumed neighbour has its lines
stolen (lines 319-339), is recorded in oldregions (line 341), removed from
the tree (line 343), and its reading-order entry retargeted (lines
344-348); crossing and overlapping neighbours are only logged (lines
349-354). -/
def reconcileStep (acc : ReconcileAcc) (nv : TextRegion × Verdict) : ReconcileAcc :=
  if nv.1.id ∈ acc.st.oldregions then acc
  else
    match nv.2 with
    | Verdict.subsumed =>
        let sc := subsumeLines acc.cand nv.1
        { cand := sc.1
          hasAddress := acc.hasAddress || sc.2
          st :=
            { regions := acc.st.regions.filter (fun r => r.id ≠ nv.1.id)
              oldregions := acc.st.oldregions ++ [nv.1.id]
              ro := retargetRO acc.st.ro nv.1.id acc.cand.id } }
    | _ => acc

/-- Lines 306-354: the loop over all existing sibling regions with their
relationship verdicts, starting from has_address = False (line 306). -/
def reconcile (cand : TextRegion) (verdicts : List (TextRegion × Verdict))
    (st : PageState) : ReconcileAcc :=
  verdicts.foldl reconcileStep { cand := cand, hasAddress := false, st := st }

/-- Lines 355-360, the acceptance gate: the candidate region is added to
the page only when has_address is set; otherwise it is dropped - but the
mutations performed by the loop stand either way. -/
def processCandidate (cand : TextRegion) (verdicts : List (TextRegion × Verdict))
    (st : PageState) : PageState :=
  let acc := reconcile cand verdicts st
  if acc.hasAddress then
    { acc.st with regions := acc.st.regions ++ [acc.cand] }
  else acc.st

/-- A sibling region whose single line carries no address annotation. -/
def sibNoAddr : TextRegion :=
  { id := "r1", textLines := [{ id := "r1_line00", custom := none }] }

/-- A freshly detected candidate region (no lines of its own yet). -/
def candA : TextRegion := { id := "addressregion01", textLines := [] }

/-- A page holding only the sibling, with an empty reading order. -/
def pageA : PageState :=
  { regions := [sibNoAddr], oldregions := [], ro := { elems := [], dict := [] } }

/-- C6, counterexample: a candidate subsumes a sibling none of whose lines
carries the ADDRESS_ annotation.  The candidate is indeed discarded (not
added), but contrary to the claim the subsumed sibling does NOT remain in
the tree: the final region list is empty - the sibling was removed at line
343 before the acceptance gate ran, and its line (id rewritten) went with
the discarded candidate. -/
theorem c6_gate_cex :
    (processCandidate candA [(sibNoAddr, Verdict.subsumed)] pageA).regions = []
    ∧ (reconcile candA [(sibNoAddr, Verdict.subsumed)] pageA).cand.textLines
      = [{ id := "addressregion01_line00", custom := none }] := by
  constructor
  · rfl
  · rfl

/-- Auxiliary invariant: an id recorded in oldregions no longer names a
region of the tree. -/
def idGone (v : String) (st : PageState) : Prop :=
  v ∈ st.oldregions → v ∉ st.regions.map TextRegion.id

lemma oldregions_step_subset (acc : ReconcileAcc) (nv : TextRegion × Verdict) :
    acc.st.oldregions ⊆ (reconcileStep acc nv).st.oldregions := by
  unfold reconcileStep
  by_cases h : nv.1.id ∈ acc.st.oldregions
  · rw [if_pos h]
    exact fun a ha => ha
  · rw [if_neg h]
    cases nv.2 with
    | subsumed => exact fun a ha => List.mem_append.mpr (Or.inl ha)
    | crossing => exact fun a ha => ha
    | overlapping => exact fun a ha => ha
    | disjoint => exact fun a ha => ha

lemma oldregions_fold_subset (verdicts : List (TextRegion × Verdict)) :
    ∀ acc : ReconcileAcc,
      acc.st.oldregions ⊆ (verdicts.foldl reconcileStep acc).st.oldregions := by
  induction verdicts with
  | nil => intro acc; exact fun a ha => ha
  | cons v vs ih =>
      intro acc
      simp only [List.foldl_cons]
      exact (oldregions_step_subset acc v).trans (ih (reconcileStep acc v))

lemma subsumed_mem_oldregions (verdicts : List (TextRegion × Verdict)) :
    ∀ (acc : ReconcileAcc) (nb : TextRegion),
      (nb, Verdict.subsumed) ∈ verdicts →
      nb.id ∈ (verdicts.foldl reconcileStep acc).st.oldregions := by
  induction verdicts with
  | nil => intro acc nb h; exact absurd h (List.not_mem_nil _)
  | cons v vs ih =>
      intro acc nb h
      simp only [List.foldl_cons]
      rcases List.mem_cons.mp h with heq | htl
      · have hstep : nb.id ∈ (reconcileStep acc v).st.oldregions := by
          rw [← heq]
          unfold reconcileStep
          dsimp only
          by_cases hmem : nb.id ∈ acc.st.oldregions
          · rw [if_pos hmem]
            exact hmem
          · rw [if_neg hmem]
            exact List.mem_append.mpr (Or.inr (List.mem_singleton.mpr rfl))
        exact oldregions_fold_subset vs _ hstep
      · exact ih (reconcileStep acc v) nb htl

lemma idGone_step (v : String) (acc : ReconcileAcc) (nv : TextRegion × Verdict)
    (h : idGone v acc.st) : idGone v (reconcileStep acc nv).st := by
  unfold reconcileStep
  by_cases hmem : nv.1.id ∈ acc.st.oldregions
  · rw [if_pos hmem]
    exact h
  · rw [if_neg hmem]
    cases nv.2 with
    | subsumed =>
        intro hv hr
        obtain ⟨r, hrf, hrid⟩ := List.mem_map.mp hr
        have hrmem := List.mem_filter.mp hrf
        rcases List.mem_append.mp hv with hcase | hcase
        · exact h hcase (List.mem_map.mpr ⟨r, hrmem.1, hrid⟩)
        · have hne : r.id ≠ nv.1.id := by simpa using hrmem.2
          rw [List.mem_singleton] at hcase
          exact hne (hrid.trans hcase)
    | crossing => exact h
    | overlapping => exact h
    | disjoint => exact h

lemma idGone_fold (v : String) (verdicts : List (TextRegion × Verdict)) :
    ∀ acc : ReconcileAcc,
      idGone v acc.st → idGone v (verdicts.foldl reconcileStep acc).st := by
  induction verdicts with
  | nil => intro acc h; exact h
  | cons w ws ih =>
      intro acc h
      simp only [List.foldl_cons]
      exact ih _ (idGone_step v acc w h)

/-- C6, amended: when no transferred line carries the ADDRESS_ annotation,
the candidate is never added to the page (the final state is exactly the
post-loop state, without the candidate); but a subsumed sibling does not
remain in the tree: its id is absent from the final region list, its lines
having been transferred to the discarded candidate. -/
theorem c6_gate_discards_candidate (cand : TextRegion)
    (verdicts : List (TextRegion × Verdict)) (st : PageState) (nb : TextRegion)
    (hga : (reconcile cand verdicts st).hasAddress = false)
    (hmem : (nb, Verdict.subsumed) ∈ verdicts)
    (hold : nb.id ∉ st.oldregions) :
    processCandidate cand verdicts st = (reconcile cand verdicts st).st
    ∧ nb.id ∉ (processCandidate cand verdicts st).regions.map TextRegion.id := by
  have hpc : processCandidate cand verdicts st = (reconcile cand verdicts st).st := by
    simp [processCandidate, hga]
  refine ⟨hpc, ?_⟩
  rw [hpc]
  have hgone : idGone nb.id (reconcile cand verdicts st).st :=
    idGone_fold nb.id verdicts _ (fun hv => absurd hv hold)
  exact hgone (subsumed_mem_oldregions verdicts _ nb hmem)

/-- C6, witness: the amended theorem applied to the concrete one-sibling
page. -/
theorem c6_gate_discards_candidate_witness :
    processCandidate candA [(sibNoAddr, Verdict.subsumed)] pageA
      = (reconcile candA [(sibNoAddr, Verdict.subsumed)] pageA).st
    ∧ "r1" ∉ (processCandidate candA
        [(sibNoAddr, Verdict.subsumed)] pageA).regions.map TextRegion.id := by
  have h := c6_gate_discards_candidate candA [(sibNoAddr, Verdict.subsumed)]
    pageA sibNoAddr rfl (List.mem_singleton.mpr rfl) (List.not_mem_nil _)
  exact ⟨h.1, h.2⟩

/-- Two sibling regions each having a reading-order entry; the first
carries an address line, so the candidate passes the acceptance gate. -/
def sibAddr : TextRegion :=
  { id := "r1",
    textLines := [{ id := "r1_line00", custom := some "subtype: ADDRESS_RCPT" }] }

def sibPlain : TextRegion := { id := "r2", textLines := [] }

def pageB : PageState :=
  { regions := [sibAddr, sibPlain]
    oldregions := []
    ro := { elems := ["r1", "r2"], dict := [("r1", 0), ("r2", 1)] } }

/-- C7, counterexample: a candidate subsumes two siblings that both have
reading-order entries.  Both reference elements are retargeted in place to
the new region id and neither is removed from the group, so after the
operation two reading-order reference elements refer to the new region id,
where the claim asserts at most one. -/
theorem c7_reading_order_cex :
    ((processCandidate candA
        [(sibAddr, Verdict.subsumed), (sibPlain, Verdict.subsumed)]
        pageB).ro.elems.filter (fun r => r = "addressregion01")).length = 2
    ∧ ¬ ((processCandidate candA
        [(sibAddr, Verdict.subsumed), (sibPlain, Verdict.subsumed)]
        pageB).ro.elems.filter (fun r => r = "addressregion01")).length ≤ 1 := by
  have h1 : ((processCandidate candA
      [(sibAddr, Verdict.subsumed), (sibPlain, Verdict.subsumed)]
      pageB).ro.elems.filter (fun r => r = "addressregion01")).length = 2 := by rfl
  refine ⟨h1, ?_⟩
  rw [h1]
  decide

/-- Keys of the reading-order dict are pairwise distinct. -/
abbrev KeysNodup (d : List (String × ℕ)) : Prop := (d.map Prod.fst).Nodup

lemma keysNodup_insertA (d : List (String × ℕ)) (k : String) (v : ℕ)
    (h : KeysNodup d) : KeysNodup (insertA d k v) := by
  unfold KeysNodup insertA
  rw [List.map_append]
  apply List.Nodup.append
  · exact List.Nodup.sublist (List.Sublist.map Prod.fst (List.filter_sublist d)) h
  · exact List.nodup_singleton k
  · intro a ha hb
    rw [List.map_singleton, List.mem_singleton] at hb
    obtain ⟨e, he, hfst⟩ := List.mem_map.mp ha
    have hne : e.1 ≠ k := by simpa using (List.mem_filter.mp he).2
    exact hne (hfst.trans hb)

lemma keysNodup_eraseA (d : List (String × ℕ)) (k : String)
    (h : KeysNodup d) : KeysNodup (eraseA d k) := by
  unfold KeysNodup eraseA
  exact List.Nodup.sublist (List.Sublist.map Prod.fst (List.filter_sublist d)) h

lemma keysNodup_retargetRO (ro : ROState) (sid rid : String)
    (h : KeysNodup ro.dict) : KeysNodup (retargetRO ro sid rid).dict := by
  unfold retargetRO
  split
  · exact h
  · exact keysNodup_eraseA _ _ (keysNodup_insertA _ _ _ h)

lemma retargetRO_elems_length (ro : ROState) (sid rid : String) :
    (retargetRO ro sid rid).elems.length = ro.elems.length := by
  unfold retargetRO
  split
  · rfl
  · exact List.length_set ro.elems _ _

lemma reconcileStep_ro_invariants (acc : ReconcileAcc) (nv : TextRegion × Verdict) :
    (reconcileStep acc nv).st.ro.elems.length = acc.st.ro.elems.length
    ∧ (KeysNodup acc.st.ro.dict → KeysNodup (reconcileStep acc nv).st.ro.dict) := by
  unfold reconcileStep
  by_cases hmem : nv.1.id ∈ acc.st.oldregions
  · rw [if_pos hmem]
    exact ⟨rfl, id⟩
  · rw [if_neg hmem]
    cases nv.2 with
    | subsumed =>
        exact ⟨retargetRO_elems_length _ _ _, fun h => keysNodup_retargetRO _ _ _ h⟩
    | crossing => exact ⟨rfl, id⟩
    | overlapping => exact ⟨rfl, id⟩
    | disjoint => exact ⟨rfl, id⟩

lemma reconcile_ro_invariants (verdicts : List (TextRegion × Verdict)) :
    ∀ acc : ReconcileAcc,
      (verdicts.foldl reconcileStep acc).st.ro.elems.length = acc.st.ro.elems.length
      ∧ (KeysNodup acc.st.ro.dict →
          KeysNodup (verdicts.foldl reconcileStep acc).st.ro.dict) := by
  induction verdicts with
  | nil => intro acc; exact ⟨rfl, id⟩
  | cons v vs ih =>
      intro acc
      simp only [List.foldl_cons]
      obtain ⟨hlen, hnd⟩ := reconcileStep_ro_invariants acc v
      obtain ⟨hlen2, hnd2⟩ := ih (reconcileStep acc v)
      exact ⟨hlen2.trans hlen, fun h => hnd2 (hnd h)⟩

lemma count_key_le_one (d : List (String × ℕ)) (h : KeysNodup d) (k : String) :
    (d.filter (fun e => e.1 = k)).length ≤ 1 := by
  induction d with
  | nil => simp
  | cons e tl ih =>
      unfold KeysNodup at h
      rw [List.map_cons, List.nodup_cons] at h
      obtain ⟨hnot, hnd⟩ := h
      by_cases hk : e.1 = k
      · have htl : tl.filter (fun x => x.1 = k) = [] := by
          apply List.filter_eq_nil_iff.mpr
          intro a ha
          simp only [decide_eq_true_eq]
          intro heq
          exact hnot (List.mem_map.mpr ⟨a, ha, heq.trans hk.symm⟩)
        rw [List.filter_cons_of_pos (by simpa using hk), htl]
        simp
      · rw [List.filter_cons_of_neg (by simpa using hk)]
        exact ih hnd

/-- C7, amended: under the driver the reading-order dict keeps pairwise
distinct keys - entries are merged, never duplicated, so at most one dict
entry refers to any id, in particular to the new region id - and no
reading-order element is dropped (the element list keeps its length).  But
the retargeted reference elements themselves stay in the group, so several
of them may come to reference the new region id (see the counterexample). -/
theorem c7_reading_order_merge (cand : TextRegion)
    (verdicts : List (TextRegion × Verdict)) (st : PageState)
    (h : KeysNodup st.ro.dict) :
    (processCandidate cand verdicts st).ro.elems.length = st.ro.elems.length
    ∧ KeysNodup (processCandidate cand verdicts st).ro.dict
    ∧ ∀ k, ((processCandidate cand verdicts st).ro.dict.filter
        (fun e => e.1 = k)).length ≤ 1 := by
  have hro : (processCandidate cand verdicts st).ro
      = (reconcile cand verdicts st).st.ro := by
    cases hA : (reconcile cand verdicts st).hasAddress <;>
      simp [processCandidate, hA]
  obtain ⟨hlen, hnd⟩ := reconcile_ro_invariants verdicts
    { cand := cand, hasAddress := false, st := st }
  rw [hro]
  exact ⟨hlen, hnd h, fun k => count_key_le_one _ (hnd h) k⟩

/-- C7, witness: the amended theorem applied to the concrete two-sibling
page: no element is dropped (still two) and the dict holds at most one
entry for the new region id. -/
theorem c7_reading_order_merge_witness :
    (processCandidate candA
        [(sibAddr, Verdict.subsumed), (sibPlain, Verdict.subsumed)]
        pageB).ro.elems.length = 2
    ∧ ((processCandidate candA
        [(sibAddr, Verdict.subsumed), (sibPlain, Verdict.subsumed)]
        pageB).ro.dict.filter (fun e => e.1 = "addressregion01")).length ≤ 1 := by
  have h := c7_reading_order_merge candA
    [(sibAddr, Verdict.subsumed), (sibPlain, Verdict.subsumed)] pageB (by decide)
  exact ⟨h.1.trans rfl, h.2.2 "addressregion01"⟩

end OcrdSegment
